import Mathlib

/-!
Shallow embedding of `Trace2Config-Synthesis.py`, a trace-driven variant
configuration synthesizer built on an SMT solver.

Modelling choices:
* The structural feature-model document is abstracted to the data the
  compiler loops actually consume: the multiset of declared names (every
  node carrying a `name` attribute), the alternative groups (each with the
  list of its named `feature` children), and the `requires` / `excludes`
  edges (pairs of referenced names).  The raw XML walk is an external
  collaborator; only the compilation into constraints is embedded.
* z3 `Bool`/`Int`/`Real` variables are interpreted by a solver state: a
  total boolean valuation of the feature names plus the two numeric
  variables `freshness_window_ms : Int` and `latency_ms : Real`.  z3 reals
  are exact rationals (the Python float literals such as `1.2` are turned
  into exact rationals by `RealVal`), so `Real` is embedded as `ℚ`.
* Constraints are embedded as an inductive type with an executable
  satisfaction function, mirroring the z3 expressions the source builds.
* The solver is an oracle: `s.check() == sat` holds iff some state
  satisfies every asserted constraint, and the extracted model is such a
  state (`SynthReturns` below).
* `derive_empirical_bounds` (pandas aggregation of the CSV logs) is an
  external collaborator; its output record `EmpiricalBounds` is a
  parameter, with the float fields embedded as `ℚ`.
-/

/-- The `EmpiricalBounds` dataclass.  Python floats are embedded as exact
rationals; the `d3` dict is an association list. -/
structure EmpiricalBounds where
  d1_mean_period_ms : ℚ
  d1_min_interarrival_ms : ℚ
  d1_max_interarrival_ms : ℚ
  d2_max_auth_latency_ms : ℚ
  d2_max_jitter_ms : ℚ
  d3_max_latency_by_variant : List (String × ℚ)
  d4_min_replay_interval_ms : ℚ

/-- The structural feature-model document, reduced to what
`compile_feature_model` reads from the parsed XML tree:
`features` is the list of `name` attributes found by `.//*[@name]` (one
entry per node, duplicates possible), `alts` lists for each `.//alt` node
the names of its `./feature[@name]` children, `requires` and `excludes`
list the `(a, b)` attribute pairs of the edge nodes. -/
structure FeatureModel where
  features : List String
  alts : List (List String)
  requires : List (String × String)
  excludes : List (String × String)

/-- The constraints the source can assert on the solver, one constructor
per syntactic shape of z3 expression it builds. -/
inductive Constraint where
  /-- The expression `Or(children)` for an alternative group. -/
  | orAny (children : List String)
  /-- The expression `Sum([If(c, 1, 0) for c in children]) == 1`. -/
  | exactlyOne (children : List String)
  /-- The expression `Implies(a, b)` from a `requires` edge. -/
  | implies (a b : String)
  /-- The expression `Not(And(a, b))` from an `excludes` edge. -/
  | notBoth (a b : String)
  /-- The expression `feature_vars[fname] == BoolVal(val)` from the variant preset. -/
  | eqVal (name : String) (val : Bool)
  /-- The variable `feature_vars[name]` asserted outright (the policy constraint). -/
  | forceTrue (name : String)
  /-- The inequality `freshness_window_ms >= n`. -/
  | freshGe (n : Int)
  /-- The inequality `latency_ms <= q`. -/
  | latLe (q : ℚ)
  /-- The equality `latency_ms == mac_cost + aes_cost + fr_cost` from
  `build_latency_model`. -/
  | latencyDef
  deriving DecidableEq

/-- A solver state: values for every variable the source declares.
`features` interprets the boolean variable `Bool(name)` for each name. -/
structure SolverState where
  features : String → Bool
  freshness_window_ms : Int
  latency_ms : ℚ

/-- The lookup `feature_vars.get(name, BoolVal(False))`: the variable of a
declared feature, and the constant false for an undeclared name. -/
def lookupVar (fm : FeatureModel) (name : String) (σ : String → Bool) : Bool :=
  if name ∈ fm.features then σ name else false

/-- The cost `mac_cost = If(MAC_32, 1.2, If(MAC_64, 2.2, 3.2))`. -/
def mac_cost (fm : FeatureModel) (σ : String → Bool) : ℚ :=
  if lookupVar fm "MAC_32" σ then 1.2 else if lookupVar fm "MAC_64" σ then 2.2 else 3.2

/-- The cost `aes_cost = If(AES_128, 0.9, 1.6)`. -/
def aes_cost (fm : FeatureModel) (σ : String → Bool) : ℚ :=
  if lookupVar fm "AES_128" σ then 0.9 else 1.6

/-- The cost `fr_cost = If(Fresh_Counter, 0.7, 1.1)`. -/
def fr_cost (fm : FeatureModel) (σ : String → Bool) : ℚ :=
  if lookupVar fm "Fresh_Counter" σ then 0.7 else 1.1

/-- The cost expression `mac_cost + aes_cost + fr_cost` that
`build_latency_model` equates with `latency_ms`. -/
def latencyExpr (fm : FeatureModel) (σ : String → Bool) : ℚ :=
  mac_cost fm σ + aes_cost fm σ + fr_cost fm σ

/-- Satisfaction of one constraint in a solver state.  `fm` is needed only
for `latencyDef`, whose z3 expression was built from `feature_vars`. -/
def Constraint.sat (fm : FeatureModel) (st : SolverState) : Constraint → Bool
  | .orAny children => children.any st.features
  | .exactlyOne children => children.countP (fun c => st.features c) == 1
  | .implies a b => !st.features a || st.features b
  | .notBoth a b => !(st.features a && st.features b)
  | .eqVal name val => st.features name == val
  | .forceTrue name => st.features name
  | .freshGe n => decide (n ≤ st.freshness_window_ms)
  | .latLe q => decide (st.latency_ms ≤ q)
  | .latencyDef => decide (st.latency_ms = latencyExpr fm st.features)

/-- A state satisfies a list of asserted constraints when it satisfies
every element (`s.add` of the list followed by `s.check()`). -/
def satAll (fm : FeatureModel) (st : SolverState) (cs : List Constraint) : Bool :=
  cs.all (Constraint.sat fm st)

/-- The constraints one alternative group emits: `Or` plus the indicator
sum when the child list is non-empty, nothing otherwise. -/
def altGroupConstraints (children : List String) : List Constraint :=
  if children.isEmpty then [] else [.orAny children, .exactlyOne children]

/-- The constraint a `requires` edge emits: `Implies(a, b)` when both
names are declared features, nothing otherwise. -/
def requiresConstraint (fm : FeatureModel) (e : String × String) : Option Constraint :=
  if e.1 ∈ fm.features ∧ e.2 ∈ fm.features then some (.implies e.1 e.2) else none

/-- The constraint an `excludes` edge emits: `Not(And(a, b))` when both
names are declared features, nothing otherwise. -/
def excludesConstraint (fm : FeatureModel) (e : String × String) : Option Constraint :=
  if e.1 ∈ fm.features ∧ e.2 ∈ fm.features then some (.notBoth e.1 e.2) else none

/-- The list `fm_constraints` accumulated by `compile_feature_model`: the
alternative-group constraints, then the `requires` implications, then the
`excludes` exclusions. -/
def fm_constraints (fm : FeatureModel) : List Constraint :=
  (fm.alts.map altGroupConstraints).flatten
    ++ fm.requires.filterMap (requiresConstraint fm)
    ++ fm.excludes.filterMap (excludesConstraint fm)

/-- The keys of `feature_vars`: `sorted(feature_names)`, the distinct
declared names in lexicographic order. -/
def FeatureModel.sortedNames (fm : FeatureModel) : List String :=
  fm.features.dedup.insertionSort (· ≤ ·)

/-- The function `compile_feature_model`: the variable table (represented by its key
list) and the structural constraints. -/
def compile_feature_model (fm : FeatureModel) : List String × List Constraint :=
  (fm.sortedNames, fm_constraints fm)

/-- The function `load_variant`: the static preset catalog (Python dicts become
association lists in insertion order). -/
def load_variant (variant_name : String) : List (String × Bool) :=
  if variant_name = "V1" then [("CAN", true), ("AES_128", true)]
  else if variant_name = "V2" then [("CAN_FD", true), ("AES_256", true)]
  else if variant_name = "V3" then [("SecOC_Protection", true)]
  else []

/-- Python `int()` applied to a numeric value: truncation toward zero. -/
def pyInt (q : ℚ) : Int :=
  q.num.tdiv q.den

/-- Python `dict.get(k, default)` on an association list. -/
def dictGet (d : List (String × ℚ)) (k : String) (default : ℚ) : ℚ :=
  (d.lookup k).getD default

/-- The list `req_constraints`: force the safety-critical feature true whenever it
is declared. -/
def req_constraints (fm : FeatureModel) : List Constraint :=
  if "SecOC_Protection" ∈ fm.features then [.forceTrue "SecOC_Protection"] else []

/-- The list `variant_constraints`: one equality per preset entry whose name is a
declared feature. -/
def variant_constraints (fm : FeatureModel) (vsel : List (String × Bool)) : List Constraint :=
  vsel.filterMap fun p => if p.1 ∈ fm.features then some (.eqVal p.1 p.2) else none

/-- The effective cost upper bound of a request:
`min(d2_max_auth_latency_ms, d3_max_latency_by_variant.get(variant_name,
d2_max_auth_latency_ms))`. -/
def effBound (bounds : EmpiricalBounds) (variant_name : String) : ℚ :=
  min bounds.d2_max_auth_latency_ms
    (dictGet bounds.d3_max_latency_by_variant variant_name bounds.d2_max_auth_latency_ms)

/-- The list `empirical_constraints`: the freshness-window lower bound and the
latency upper bound. -/
def empirical_constraints (bounds : EmpiricalBounds) (variant_name : String) : List Constraint :=
  [.freshGe (pyInt bounds.d1_min_interarrival_ms), .latLe (effBound bounds variant_name)]

/-- Everything `synthesize_variant` asserts on the solver, in assertion
order, with the cost upper bound and freshness lower bound kept abstract. -/
def synthConstraintsB (fm : FeatureModel) (variant_name : String)
    (fwBound : Int) (B : ℚ) : List Constraint :=
  fm_constraints fm
    ++ req_constraints fm
    ++ variant_constraints fm (load_variant variant_name)
    ++ [.latencyDef]
    ++ [.freshGe fwBound, .latLe B]

/-- Everything `synthesize_variant` asserts on the solver, in assertion
order: structural, policy, preset, cost-definition, empirical. -/
def synthConstraints (fm : FeatureModel) (bounds : EmpiricalBounds)
    (variant_name : String) : List Constraint :=
  fm_constraints fm
    ++ req_constraints fm
    ++ variant_constraints fm (load_variant variant_name)
    ++ [.latencyDef]
    ++ empirical_constraints bounds variant_name

/-- The dictionary `synthesize_variant` returns on `sat`: every entry of
`feature_vars` evaluated in the model (model completion makes each value a
concrete boolean). -/
def synthesize_result (fm : FeatureModel) (st : SolverState) : List (String × Bool) :=
  fm.sortedNames.map fun n => (n, st.features n)

/-- The proposition that `synthesize_variant variant_name` returns `res` (rather than `None`):
the solver, used as an oracle, found a state satisfying every asserted
constraint, and `res` evaluates `feature_vars` in that state. -/
def SynthReturns (fm : FeatureModel) (bounds : EmpiricalBounds)
    (variant_name : String) (res : List (String × Bool)) : Prop :=
  ∃ st : SolverState,
    satAll fm st (synthConstraints fm bounds variant_name) = true ∧
    res = synthesize_result fm st

/-! ### Helper lemmas -/

theorem nat_succ_div_le (m n : Nat) : (m+1)/(n+1) ≤ m/(n+1) + 1 := by
  calc (m+1)/(n+1) ≤ (m + (n+1))/(n+1) := Nat.div_le_div_right (by omega)
    _ = m/(n+1) + 1 := Nat.add_div_right m (Nat.succ_pos n)

/-- Euclidean division by a natural number is at most truncating division:
rounding toward zero never decreases the quotient. -/
theorem ediv_le_tdiv (a : Int) (b : Nat) : a / (b : Int) ≤ a.tdiv (b : Int) := by
  match a, b with
  | Int.ofNat m, b =>
    exact le_of_eq (Int.tdiv_eq_ediv (by exact Int.ofNat_nonneg m) (by positivity)).symm
  | Int.negSucc m, 0 =>
    show Int.ediv _ _ ≤ Int.tdiv _ _
    simp [Int.ediv, Int.tdiv]
  | Int.negSucc m, (n+1) =>
    show Int.ediv _ _ ≤ Int.tdiv _ _
    have h := nat_succ_div_le m n
    simp only [Int.ediv, Int.tdiv, Nat.succ_eq_add_one, Int.ofNat_eq_natCast]
    rw [Int.negSucc_eq]
    omega

/-- The floor of a rational is at most its Python `int()` truncation. -/
theorem floor_le_pyInt (q : ℚ) : ⌊q⌋ ≤ pyInt q := by
  rw [Rat.floor_def, pyInt]
  exact ediv_le_tdiv q.num q.den

/-- A constraint that appears among the asserted ones holds in any state
the solver accepts. -/
theorem sat_of_mem_of_satAll {fm : FeatureModel} {st : SolverState}
    {cs : List Constraint} (h : satAll fm st cs = true) {c : Constraint}
    (hc : c ∈ cs) : c.sat fm st = true :=
  List.all_eq_true.mp h c hc

/-- Looking up a key of a map-built association list returns the mapped
value. -/
theorem lookup_map_self {σ : String → Bool} {l : List String} {n : String}
    (h : n ∈ l) : (l.map fun m => (m, σ m)).lookup n = some (σ n) := by
  induction l with
  | nil => cases h
  | cons a l ih =>
    rcases List.mem_cons.mp h with rfl | h
    · simp [List.lookup]
    · by_cases hna : n = a
      · subst hna; simp [List.lookup]
      · simpa [List.lookup, beq_eq_false_iff_ne.mpr hna] using ih h

/-- Membership in the compiled variable table agrees with membership in
the declared-name list. -/
theorem mem_sortedNames {fm : FeatureModel} {n : String} :
    n ∈ fm.sortedNames ↔ n ∈ fm.features := by
  rw [FeatureModel.sortedNames]
  rw [(List.perm_insertionSort (· ≤ ·) fm.features.dedup).mem_iff]
  exact List.mem_dedup

/-! ### A concrete scenario (the spec's testable-property 8 model) -/

/-- Example feature model: two alternative groups, one `requires` edge,
one `excludes` edge. -/
def fmEx : FeatureModel where
  features := ["MAC_32", "MAC_64", "MAC_128", "AES_128", "AES_256",
               "SecOC_Protection", "Fresh_Counter", "CAN", "CAN_FD"]
  alts := [["MAC_32", "MAC_64", "MAC_128"], ["AES_128", "AES_256"]]
  requires := [("SecOC_Protection", "Fresh_Counter")]
  excludes := [("CAN", "CAN_FD")]

/-- Example empirical bounds: min inter-arrival 5 ms, global max auth
latency 3.5 ms, variant `V3` max latency 3.0 ms. -/
def boundsEx : EmpiricalBounds where
  d1_mean_period_ms := 10
  d1_min_interarrival_ms := 5
  d1_max_interarrival_ms := 20
  d2_max_auth_latency_ms := 3.5
  d2_max_jitter_ms := 0.4
  d3_max_latency_by_variant := [("V3", 3.0)]
  d4_min_replay_interval_ms := 50

/-- Example feature valuation: cheapest MAC and AES, counter freshness,
classic CAN, protection on. -/
def sigmaEx : String → Bool := fun n =>
  ["MAC_32", "AES_128", "SecOC_Protection", "Fresh_Counter", "CAN"].contains n

/-- Example solver state satisfying the whole `V3` request. -/
def stEx : SolverState where
  features := sigmaEx
  freshness_window_ms := 5
  latency_ms := 2.8

/-- The example state satisfies every constraint of the `V3` request. -/
theorem satEx : satAll fmEx stEx (synthConstraints fmEx boundsEx "V3") = true := by
  norm_num +decide [satAll, synthConstraints, fm_constraints, altGroupConstraints,
    requiresConstraint, excludesConstraint, req_constraints,
    variant_constraints, load_variant, empirical_constraints, effBound,
    dictGet, pyInt, Constraint.sat, latencyExpr, mac_cost, aes_cost, fr_cost,
    lookupVar, fmEx, boundsEx, stEx, sigmaEx, min_def,
    List.countP_cons, List.countP_nil]

/-- The request constraints are the abstract-bound constraints
instantiated at the empirically derived bounds. -/
theorem synthConstraints_eq_abstract (fm : FeatureModel) (bounds : EmpiricalBounds)
    (variant_name : String) :
    synthConstraints fm bounds variant_name =
      synthConstraintsB fm variant_name (pyInt bounds.d1_min_interarrival_ms)
        (effBound bounds variant_name) := rfl

/-- Structural constraints are among the asserted ones. -/
theorem mem_synth_of_mem_fm {fm : FeatureModel} {c : Constraint}
    (bounds : EmpiricalBounds) (variant_name : String)
    (hc : c ∈ fm_constraints fm) : c ∈ synthConstraints fm bounds variant_name := by
  simp only [synthConstraints, List.mem_append]
  tauto

/-- Policy constraints are among the asserted ones. -/
theorem mem_synth_of_mem_req {fm : FeatureModel} {c : Constraint}
    (bounds : EmpiricalBounds) (variant_name : String)
    (hc : c ∈ req_constraints fm) : c ∈ synthConstraints fm bounds variant_name := by
  simp only [synthConstraints, List.mem_append]
  tauto

/-- Preset constraints are among the asserted ones. -/
theorem mem_synth_of_mem_variant {fm : FeatureModel} {c : Constraint}
    (bounds : EmpiricalBounds) (variant_name : String)
    (hc : c ∈ variant_constraints fm (load_variant variant_name)) :
    c ∈ synthConstraints fm bounds variant_name := by
  simp only [synthConstraints, List.mem_append]
  tauto

/-- Empirical constraints are among the asserted ones. -/
theorem mem_synth_of_mem_empirical {fm : FeatureModel} {c : Constraint}
    (bounds : EmpiricalBounds) (variant_name : String)
    (hc : c ∈ empirical_constraints bounds variant_name) :
    c ∈ synthConstraints fm bounds variant_name := by
  simp only [synthConstraints, List.mem_append]
  tauto

/-! ### The claims -/

/-- The example state satisfies the structural constraints alone. -/
theorem satFmEx : satAll fmEx stEx (fm_constraints fmEx) = true := by
  norm_num +decide [satAll, fm_constraints, altGroupConstraints,
    requiresConstraint, excludesConstraint, Constraint.sat,
    lookupVar, fmEx, stEx, sigmaEx, List.countP_cons, List.countP_nil]

/-- C1: for every alternative group whose child set is non-empty, the
compiler emits `OR(C)` and `sum(indicator) == 1`, so any assignment
satisfying the compiled constraints makes exactly one member true (and at
least one); a group with zero resolvable children emits no constraints. -/
theorem alt_groups_exactly_one (fm : FeatureModel) (st : SolverState)
    (h : satAll fm st (fm_constraints fm) = true)
    (children : List String) (hmem : children ∈ fm.alts) (hne : children ≠ []) :
    (children.countP (fun c => st.features c) = 1 ∧ children.any st.features = true) ∧
      altGroupConstraints [] = [] := by
  have hboth : [Constraint.orAny children, Constraint.exactlyOne children]
      ⊆ fm_constraints fm := by
    intro c hc
    refine List.mem_append_left _ (List.mem_append_left _ (List.mem_flatten.mpr ?_))
    refine ⟨altGroupConstraints children, List.mem_map_of_mem _ hmem, ?_⟩
    rwa [altGroupConstraints, if_neg (by simpa [List.isEmpty_iff] using hne)]
  have h1 := sat_of_mem_of_satAll h (hboth (List.mem_cons_self _ _))
  have h2 := sat_of_mem_of_satAll h
    (hboth (List.mem_cons_of_mem _ (List.mem_cons_self _ _)))
  refine ⟨⟨?_, ?_⟩, rfl⟩
  · simpa [Constraint.sat] using h2
  · simpa [Constraint.sat] using h1

/-- Witness for C1 on the concrete scenario: the MAC alternative group of
`fmEx` has exactly one member true in `stEx`. -/
theorem alt_groups_exactly_one_witness :
    (List.countP (fun c => stEx.features c) ["MAC_32", "MAC_64", "MAC_128"] = 1 ∧
      ["MAC_32", "MAC_64", "MAC_128"].any stEx.features = true) ∧
      altGroupConstraints [] = [] :=
  alt_groups_exactly_one fmEx stEx satFmEx
    ["MAC_32", "MAC_64", "MAC_128"] (by simp [fmEx]) (by simp)

/-- C2: whenever the safety-critical feature `SecOC_Protection` is
declared, every assignment `synthesize_variant` returns maps it to
`true`, for any variant identifier. -/
theorem secoc_forced_true (fm : FeatureModel) (bounds : EmpiricalBounds)
    (variant_name : String) (res : List (String × Bool))
    (hdecl : "SecOC_Protection" ∈ fm.features)
    (h : SynthReturns fm bounds variant_name res) :
    res.lookup "SecOC_Protection" = some true := by
  obtain ⟨st, hsat, rfl⟩ := h
  have hc : Constraint.forceTrue "SecOC_Protection" ∈ req_constraints fm := by
    rw [req_constraints, if_pos hdecl]
    simp
  have hs := sat_of_mem_of_satAll hsat (mem_synth_of_mem_req bounds variant_name hc)
  rw [Constraint.sat] at hs
  rw [synthesize_result, lookup_map_self (mem_sortedNames.mpr hdecl), hs]

/-- Witness for C2: the `V3` result of the concrete scenario maps
`SecOC_Protection` to `true`. -/
theorem secoc_forced_true_witness :
    (synthesize_result fmEx stEx).lookup "SecOC_Protection" = some true :=
  secoc_forced_true fmEx boundsEx "V3" (synthesize_result fmEx stEx)
    (by simp [fmEx]) ⟨stEx, satEx, rfl⟩

/-- C3: in every satisfying state of a request for `variant_name`, the
cost variable is at most the minimum of the global max observed auth
latency and the per-variant max (defaulting to the global one). -/
theorem latency_bounded (fm : FeatureModel) (bounds : EmpiricalBounds)
    (variant_name : String) (st : SolverState)
    (h : satAll fm st (synthConstraints fm bounds variant_name) = true) :
    st.latency_ms ≤ min bounds.d2_max_auth_latency_ms
      (dictGet bounds.d3_max_latency_by_variant variant_name
        bounds.d2_max_auth_latency_ms) := by
  have hc : Constraint.latLe (effBound bounds variant_name)
      ∈ empirical_constraints bounds variant_name := by
    simp [empirical_constraints]
  have hs := sat_of_mem_of_satAll h (mem_synth_of_mem_empirical bounds variant_name hc)
  rw [Constraint.sat] at hs
  exact of_decide_eq_true hs

/-- Witness for C3 on the concrete scenario. -/
theorem latency_bounded_witness :
    stEx.latency_ms ≤ min boundsEx.d2_max_auth_latency_ms
      (dictGet boundsEx.d3_max_latency_by_variant "V3"
        boundsEx.d2_max_auth_latency_ms) :=
  latency_bounded fmEx boundsEx "V3" stEx satEx

/-- The example state also satisfies the whole `V1` request (preset
`CAN = true, AES_128 = true`). -/
theorem satExV1 : satAll fmEx stEx (synthConstraints fmEx boundsEx "V1") = true := by
  have hd : effBound boundsEx "V1" = 3.5 := by
    simp [effBound, dictGet, boundsEx, List.lookup]
  have hp : pyInt boundsEx.d1_min_interarrival_ms = 5 := by
    norm_num [pyInt, boundsEx]
  norm_num +decide [satAll, synthConstraints, fm_constraints, altGroupConstraints,
    requiresConstraint, excludesConstraint, req_constraints,
    variant_constraints, load_variant, empirical_constraints, hd, hp,
    Constraint.sat, latencyExpr, mac_cost, aes_cost, fr_cost,
    lookupVar, fmEx, stEx, sigmaEx,
    List.countP_cons, List.countP_nil]

/-- C4: every preset entry of the requested variant whose name is a
declared feature is honoured by any returned assignment. -/
theorem preset_respected (fm : FeatureModel) (bounds : EmpiricalBounds)
    (variant_name : String) (res : List (String × Bool)) (name : String) (val : Bool)
    (hpair : (name, val) ∈ load_variant variant_name)
    (hname : name ∈ fm.features)
    (h : SynthReturns fm bounds variant_name res) :
    res.lookup name = some val := by
  obtain ⟨st, hsat, rfl⟩ := h
  have hc : Constraint.eqVal name val
      ∈ variant_constraints fm (load_variant variant_name) := by
    rw [variant_constraints]
    exact List.mem_filterMap.mpr ⟨(name, val), hpair, by simp [hname]⟩
  have hs := sat_of_mem_of_satAll hsat (mem_synth_of_mem_variant bounds variant_name hc)
  rw [Constraint.sat] at hs
  rw [synthesize_result, lookup_map_self (mem_sortedNames.mpr hname),
    beq_iff_eq.mp hs]

/-- Witness for C4: the `V1` preset fixes `CAN = true` and the result of
the concrete `V1` request honours it. -/
theorem preset_respected_witness :
    (synthesize_result fmEx stEx).lookup "CAN" = some true :=
  preset_respected fmEx boundsEx "V1" (synthesize_result fmEx stEx) "CAN" true
    (by simp [load_variant]) (by simp [fmEx]) ⟨stEx, satExV1, rfl⟩

/-- C5: the freshness window of any satisfying state is at least the
truncated minimum inter-arrival time, hence at least its floor; when that
minimum is exactly 5 ms the window is at least 5. -/
theorem freshness_window_lower_bound (fm : FeatureModel) (bounds : EmpiricalBounds)
    (variant_name : String) (st : SolverState)
    (h : satAll fm st (synthConstraints fm bounds variant_name) = true) :
    pyInt bounds.d1_min_interarrival_ms ≤ st.freshness_window_ms ∧
    ⌊bounds.d1_min_interarrival_ms⌋ ≤ st.freshness_window_ms ∧
    (bounds.d1_min_interarrival_ms = 5 → 5 ≤ st.freshness_window_ms) := by
  have hc : Constraint.freshGe (pyInt bounds.d1_min_interarrival_ms)
      ∈ empirical_constraints bounds variant_name := by
    simp [empirical_constraints]
  have hs := sat_of_mem_of_satAll h (mem_synth_of_mem_empirical bounds variant_name hc)
  rw [Constraint.sat] at hs
  have hpy := of_decide_eq_true hs
  refine ⟨hpy, le_trans (floor_le_pyInt _) hpy, fun h5 => le_trans ?_ hpy⟩
  rw [h5]
  norm_num [pyInt]

/-- Witness for C5 on the concrete scenario, whose minimum observed
inter-arrival time is 5 ms. -/
theorem freshness_window_lower_bound_witness :
    pyInt boundsEx.d1_min_interarrival_ms ≤ stEx.freshness_window_ms ∧
    ⌊boundsEx.d1_min_interarrival_ms⌋ ≤ stEx.freshness_window_ms ∧
    (boundsEx.d1_min_interarrival_ms = 5 → 5 ≤ stEx.freshness_window_ms) :=
  freshness_window_lower_bound fmEx boundsEx "V3" stEx satEx

/-- C6: relaxing the cost upper bound preserves satisfiability — if the
request constraints with bound `B` are satisfiable, they stay satisfiable
after replacing `B` by any larger `B'`, all else equal. -/
theorem cost_bound_monotone (fm : FeatureModel) (variant_name : String)
    (fwBound : Int) (B B' : ℚ)
    (hsat : ∃ st, satAll fm st (synthConstraintsB fm variant_name fwBound B) = true)
    (hlt : B < B') :
    ∃ st, satAll fm st (synthConstraintsB fm variant_name fwBound B') = true := by
  obtain ⟨st, hst⟩ := hsat
  refine ⟨st, ?_⟩
  rw [satAll, List.all_eq_true] at hst ⊢
  intro c hc
  rw [synthConstraintsB] at hc
  rcases List.mem_append.mp hc with hcl | hcr
  · exact hst c (by rw [synthConstraintsB]; exact List.mem_append_left _ hcl)
  · rcases List.mem_cons.mp hcr with rfl | hcr2
    · refine hst _ ?_
      rw [synthConstraintsB]
      exact List.mem_append_right _ (List.mem_cons_self _ _)
    · rcases List.mem_cons.mp hcr2 with rfl | hfalse
      · have h6 := hst (Constraint.latLe B) (by
          rw [synthConstraintsB]
          exact List.mem_append_right _ (List.mem_cons_of_mem _ (List.mem_cons_self _ _)))
        simp only [Constraint.sat] at h6 ⊢
        exact decide_eq_true (le_trans (of_decide_eq_true h6) (le_of_lt hlt))
      · exact absurd hfalse (List.not_mem_nil c)

/-- Witness for C6: the concrete `V3` request is satisfiable with its
actual bound 3.0 and stays satisfiable at the relaxed bound 4. -/
theorem cost_bound_monotone_witness :
    ∃ st, satAll fmEx st
      (synthConstraintsB fmEx "V3" (pyInt boundsEx.d1_min_interarrival_ms) 4) = true :=
  cost_bound_monotone fmEx "V3" (pyInt boundsEx.d1_min_interarrival_ms)
    (effBound boundsEx "V3") 4
    ⟨stEx, by rw [← synthConstraints_eq_abstract]; exact satEx⟩
    (by norm_num [effBound, dictGet, boundsEx, min_def])

/-- C7: a `requires` edge whose two endpoints both resolve to declared
features compiles to an implication every satisfying state obeys; an edge
with an unknown endpoint is silently skipped and contributes no
constraint. -/
theorem requires_edges (fm : FeatureModel) (a b : String)
    (hedge : (a, b) ∈ fm.requires) :
    (a ∈ fm.features → b ∈ fm.features →
      ∀ st : SolverState, satAll fm st (fm_constraints fm) = true →
        st.features a = true → st.features b = true) ∧
    (¬(a ∈ fm.features ∧ b ∈ fm.features) → requiresConstraint fm (a, b) = none) := by
  constructor
  · intro ha hb st hsat hA
    have hc : Constraint.implies a b ∈ fm_constraints fm := by
      rw [fm_constraints]
      refine List.mem_append_left _ (List.mem_append_right _ ?_)
      exact List.mem_filterMap.mpr ⟨(a, b), hedge, by simp [requiresConstraint, ha, hb]⟩
    have hs := sat_of_mem_of_satAll hsat hc
    simp only [Constraint.sat, hA, Bool.not_true, Bool.false_or] at hs
    exact hs
  · intro hnot
    rw [requiresConstraint, if_neg hnot]

/-- Witness for C7: the edge `requires(SecOC_Protection, Fresh_Counter)`
of the concrete scenario forces `Fresh_Counter` in `stEx`. -/
theorem requires_edges_witness : stEx.features "Fresh_Counter" = true :=
  (requires_edges fmEx "SecOC_Protection" "Fresh_Counter"
      (by simp [fmEx])).1 (by simp [fmEx]) (by simp [fmEx]) stEx satFmEx
    (by simp [stEx, sigmaEx])

/-- C8: an identifier outside the preset catalog loads the empty preset,
adds no preset equality, and leaves the request made of the structural,
policy, cost-definition and empirical constraints only. -/
theorem unknown_variant_unconstrained (fm : FeatureModel) (bounds : EmpiricalBounds)
    (variant_name : String) (h1 : variant_name ≠ "V1") (h2 : variant_name ≠ "V2")
    (h3 : variant_name ≠ "V3") :
    load_variant variant_name = [] ∧
    variant_constraints fm (load_variant variant_name) = [] ∧
    synthConstraints fm bounds variant_name =
      fm_constraints fm ++ req_constraints fm ++ [Constraint.latencyDef]
        ++ empirical_constraints bounds variant_name := by
  have hlv : load_variant variant_name = [] := by
    rw [load_variant, if_neg h1, if_neg h2, if_neg h3]
  refine ⟨hlv, ?_, ?_⟩
  · rw [hlv]; rfl
  · rw [synthConstraints, hlv]
    simp [variant_constraints]

/-- Witness for C8 at the unknown identifier `V99`. -/
theorem unknown_variant_unconstrained_witness :
    load_variant "V99" = [] ∧
    variant_constraints fmEx (load_variant "V99") = [] ∧
    synthConstraints fmEx boundsEx "V99" =
      fm_constraints fmEx ++ req_constraints fmEx ++ [Constraint.latencyDef]
        ++ empirical_constraints boundsEx "V99" :=
  unknown_variant_unconstrained fmEx boundsEx "V99" (by simp) (by simp) (by simp)

/-- C9: the keys of a returned assignment are exactly the declared
feature names (each declared feature appears with a concrete boolean);
the freshness-window and latency variables are not in the result, whose
entries range over `feature_vars` only. -/
theorem result_covers_exactly_declared_features (fm : FeatureModel)
    (bounds : EmpiricalBounds) (variant_name : String) (res : List (String × Bool))
    (h : SynthReturns fm bounds variant_name res) :
    res.map Prod.fst = fm.sortedNames ∧
    ∀ n, (n ∈ res.map Prod.fst ↔ n ∈ fm.features) := by
  obtain ⟨st, -, rfl⟩ := h
  have hkeys : (synthesize_result fm st).map Prod.fst = fm.sortedNames := by
    simp only [synthesize_result, List.map_map]
    exact List.map_id' fm.sortedNames
  exact ⟨hkeys, fun n => by rw [hkeys]; exact mem_sortedNames⟩

/-- Witness for C9 on the concrete scenario. -/
theorem result_covers_exactly_declared_features_witness :
    (synthesize_result fmEx stEx).map Prod.fst = fmEx.sortedNames ∧
    ∀ n, (n ∈ (synthesize_result fmEx stEx).map Prod.fst ↔ n ∈ fmEx.features) :=
  result_covers_exactly_declared_features fmEx boundsEx "V3"
    (synthesize_result fmEx stEx) ⟨stEx, satEx, rfl⟩

/-- The cost-definition constraint is among the asserted ones. -/
theorem mem_synth_latencyDef (fm : FeatureModel) (bounds : EmpiricalBounds)
    (variant_name : String) :
    Constraint.latencyDef ∈ synthConstraints fm bounds variant_name := by
  simp [synthConstraints]

/-- Example bounds with the `V3` latency cap tightened to 1.0 ms, below
the cheapest achievable cost (the spec's testable property 9). -/
def boundsTight : EmpiricalBounds :=
  { boundsEx with d3_max_latency_by_variant := [("V3", 1.0)] }

/-- C10: under any boolean feature assignment the cost expression lies in
the closed interval `[2.8, 5.9]`; hence a request whose effective cost
upper bound is below 2.8 is infeasible, and a bound of at least 5.9 never
excludes an assignment. -/
theorem cost_expr_range (fm : FeatureModel) (σ : String → Bool)
    (bounds : EmpiricalBounds) (variant_name : String) (B : ℚ) :
    ((2.8 : ℚ) ≤ latencyExpr fm σ ∧ latencyExpr fm σ ≤ 5.9) ∧
    (effBound bounds variant_name < 2.8 →
      ∀ st : SolverState, satAll fm st (synthConstraints fm bounds variant_name) = false) ∧
    (5.9 ≤ B → ∀ fw : Int,
      Constraint.sat fm ⟨σ, fw, latencyExpr fm σ⟩ Constraint.latencyDef = true ∧
      Constraint.sat fm ⟨σ, fw, latencyExpr fm σ⟩ (Constraint.latLe B) = true) := by
  have hrange : ∀ τ : String → Bool,
      (2.8 : ℚ) ≤ latencyExpr fm τ ∧ latencyExpr fm τ ≤ 5.9 := by
    intro τ
    unfold latencyExpr mac_cost aes_cost fr_cost
    split_ifs <;> norm_num
  refine ⟨hrange σ, ?_, ?_⟩
  · intro hB st
    cases hsat : satAll fm st (synthConstraints fm bounds variant_name) with
    | false => rfl
    | true =>
      exfalso
      have hdef := sat_of_mem_of_satAll hsat (mem_synth_latencyDef fm bounds variant_name)
      have hle := sat_of_mem_of_satAll hsat
        (mem_synth_of_mem_empirical bounds variant_name
          (by simp [empirical_constraints] : Constraint.latLe (effBound bounds variant_name)
            ∈ empirical_constraints bounds variant_name))
      simp only [Constraint.sat] at hdef hle
      have h1 := of_decide_eq_true hdef
      have h2 := of_decide_eq_true hle
      have h3 := (hrange st.features).1
      rw [h1] at h2
      linarith
  · intro hB fw
    refine ⟨by simp [Constraint.sat], ?_⟩
    simp only [Constraint.sat]
    exact decide_eq_true (le_trans (hrange σ).2 hB)

/-- Witness for C10: with the tightened `V3` cap of 1.0 ms the concrete
request rejects `stEx`, while the bound 6 accepts the cost of `sigmaEx`. -/
theorem cost_expr_range_witness :
    satAll fmEx stEx (synthConstraints fmEx boundsTight "V3") = false ∧
    Constraint.sat fmEx ⟨sigmaEx, 5, latencyExpr fmEx sigmaEx⟩
      (Constraint.latLe 6) = true :=
  ⟨(cost_expr_range fmEx sigmaEx boundsTight "V3" 6).2.1
      (by simp only [effBound, dictGet, boundsTight, boundsEx, List.lookup]
          norm_num [min_def]) stEx,
    ((cost_expr_range fmEx sigmaEx boundsTight "V3" 6).2.2 (by norm_num) 5).2⟩
